import Mathlib

/-!
Verification of the Rocket.Chat standup bot (`src/index.js`, `src/database.js`)
against its natural-language specification.

The SQLite database is modelled as an explicit state (`DB`): the `standups`
table (unique `standup_date`, autoincrement `id`) and the `responses` table
(autoincrement `id`, no uniqueness constraint on `(standup_id, user_id)`,
`answers` a nullable TEXT column).  The `questions` and `answers` columns hold
JSON-serialized string arrays in the source; here a column value
`some l : Option (List String)` models the column containing the JSON
serialization of the array `l`, and `none` models SQL `NULL`
(`answers TEXT` has no `NOT NULL` constraint).  `JSON.parse` of such a column
is recovery of `l`, faulting on `NULL`.

Chat-transport effects (direct messages, channel messages, `chat.postMessage`
with attachments) are modelled as an emitted list of `Event`s.  The handlers
`askNextQuestion`, `processStandupResponse`, `promptUsersForStandup` and
`publishStandupSummary` are translated as atomic state transformers; the
cron scheduler, the `setTimeout` rollup timer and the 5-second pacing delay
are external and appear only as which operation fires next.
-/

/-- The `status` column of a response row: `'pending' | 'answered' | 'skipped'`. -/
inductive Status where
  | pending : Status
  | answered : Status
  | skipped : Status
deriving DecidableEq, Repr

/-- A row of the `standups` table: `id INTEGER PRIMARY KEY AUTOINCREMENT`,
`standup_date TEXT NOT NULL UNIQUE`. -/
structure Standup where
  id : Nat
  standup_date : String
deriving DecidableEq, Repr

/-- A row of the `responses` table.  `answers` is nullable (`answers TEXT`);
`some l` models the column holding `JSON.stringify` of the array `l`, `none`
models `NULL`. -/
structure ResponseRecord where
  id : Nat
  standup_id : Nat
  user_id : String
  username : String
  questions : List String
  answers : Option (List String)
  status : Status
deriving DecidableEq, Repr

/-- An entry of `VALID_STANDUP_MEMBERS`: `{ _id: userId, username: username }`. -/
structure Member where
  _id : String
  username : String
deriving DecidableEq, Repr

/-- The SQLite database state: both tables plus the autoincrement counters. -/
structure DB where
  standups : List Standup
  responses : List ResponseRecord
  nextStandupId : Nat
  nextResponseId : Nat
deriving DecidableEq, Repr

/-- The freshly initialized database (`initializeDatabase` creates two empty
tables; SQLite autoincrement starts at 1). -/
def initDB : DB := { standups := [], responses := [], nextStandupId := 1, nextResponseId := 1 }

/-- An attachment block built by `publishIndividualSummary`. -/
structure Attachment where
  color : String
  title : String
  text : String
deriving DecidableEq, Repr

/-- An outbound chat effect: a direct message (`sendDirectMessage`), a plain
message to the summary channel (`driver.sendToRoomId`), or a
`chat.postMessage` with attachments (`publishIndividualSummary`).  The
`recordId` on `channelPost` identifies which response record the individual
summary renders (not part of the wire payload; used to count publications
per record). -/
inductive Event where
  | dm (userId : String) (text : String) : Event
  | channelMsg (text : String) : Event
  | channelPost (recordId : Nat) (text : String) (attachments : List Attachment) : Event
deriving DecidableEq, Repr

/- ### Skip detection: `text.toLowerCase().trim() === 'skip'` -/

/-- Whitespace removed by `String.prototype.trim` (the ASCII part). -/
def isJsSpace (c : Char) : Bool :=
  decide (c = ' ') || decide (c = '\t') || decide (c = '\n') || decide (c = '\r') ||
    decide (c = '\x0b') || decide (c = '\x0c')

/-- Strip `isJsSpace` characters from both ends of a character list. -/
def trimChars (l : List Char) : List Char :=
  (((l.dropWhile isJsSpace).reverse).dropWhile isJsSpace).reverse

/-- JS `String.prototype.trim`. -/
def jsTrim (s : String) : String := ⟨trimChars s.data⟩

/-- JS `String.prototype.toLowerCase` (ASCII case folding). -/
def jsToLower (s : String) : String := ⟨s.data.map Char.toLower⟩

/-- The skip-command test in `processStandupResponse`:
`text.toLowerCase().trim() === 'skip'`. -/
def isSkipText (text : String) : Bool := decide (jsTrim (jsToLower text) = "skip")

/- ### Session store operations -/

/-- `INSERT INTO standups (standup_date) VALUES (?)`: fails (returns `none`)
exactly when the `UNIQUE` constraint on `standup_date` is violated, otherwise
inserts a fresh row and returns its id. -/
def insertStandupRun (date : String) (db : DB) : DB × Option Nat :=
  if db.standups.any (fun s => decide (s.standup_date = date)) then
    (db, none)
  else
    ({ db with
        standups := db.standups ++ [(⟨db.nextStandupId, date⟩ : Standup)],
        nextStandupId := db.nextStandupId + 1 },
     some db.nextStandupId)

/-- `SELECT id FROM standups WHERE standup_date = ?`. -/
def selectStandupByDate (date : String) (db : DB) : Option Nat :=
  (db.standups.find? (fun s => decide (s.standup_date = date))).map (fun s => s.id)

/-- The session-creation step of `promptUsersForStandup`: try the insert; on a
`UNIQUE constraint failed` error fall back to selecting the existing row
(`getStandupAndPrompt`).  Returns `none` only on the `Could not find or
create a standup session for today` error path. -/
def getOrCreateSession (date : String) (db : DB) : DB × Option Nat :=
  match insertStandupRun date db with
  | (db1, some sid) => (db1, some sid)
  | (db1, none) => (db1, selectStandupByDate date db1)

/-- The response row inserted for one member during fan-out: `status
'pending'`, `answers` initialized to `JSON.stringify([])` (the serialized
empty array, not `NULL`), `questions` a snapshot of `QUESTIONS_ARRAY`. -/
def newResponse (standupId : Nat) (member : Member) (questions : List String) (rid : Nat) :
    ResponseRecord :=
  { id := rid, standup_id := standupId, user_id := member._id, username := member.username,
    questions := questions, answers := some [], status := Status.pending }

/-- `INSERT INTO responses (standup_id, user_id, username, questions, answers,
status) VALUES (...)`: the schema has no uniqueness constraint on
`(standup_id, user_id)`, so the insert always succeeds and appends a row. -/
def insertResponse (standupId : Nat) (member : Member) (questions : List String) (db : DB) :
    DB × Nat :=
  ({ db with
      responses := db.responses ++ [newResponse standupId member questions db.nextResponseId],
      nextResponseId := db.nextResponseId + 1 },
   db.nextResponseId)

/-- `UPDATE responses SET status = ? WHERE id = ?`. -/
def updateStatus (rid : Nat) (status : Status) (db : DB) : DB :=
  { db with responses :=
      db.responses.map (fun r => if r.id = rid then { r with status := status } else r) }

/-- `UPDATE responses SET answers = ? WHERE id = ?` (the new value is the
serialization of `newAnswers`). -/
def updateAnswers (rid : Nat) (newAnswers : List String) (db : DB) : DB :=
  { db with responses :=
      db.responses.map (fun r => if r.id = rid then { r with answers := some newAnswers } else r) }

/-- `ORDER BY id DESC LIMIT 1`: the row with the maximal id (row ids are
unique, being the primary key). -/
def selectLatest : List ResponseRecord → Option ResponseRecord
  | [] => none
  | r :: rs =>
    match selectLatest rs with
    | none => some r
    | some m => if r.id < m.id then some m else some r

/-- `SELECT * FROM responses WHERE user_id = ? AND status = "pending" ORDER BY
id DESC LIMIT 1`. -/
def latestPendingFor (userId : String) (db : DB) : Option ResponseRecord :=
  selectLatest (db.responses.filter
    (fun r => decide (r.user_id = userId) && decide (r.status = Status.pending)))

/- ### Conversation engine -/

/-- Replace every newline character with the two-character sequence `\n`:
`ans.replace(/\n/g, '\\n')` in `publishIndividualSummary`. -/
def escapeNewlines : List Char → List Char
  | [] => []
  | c :: cs => if c = '\n' then '\\' :: 'n' :: escapeNewlines cs else c :: escapeNewlines cs

/-- `const formattedAnswer = ans.replace(/\n/g, '\\n')`. -/
def formatAnswer (s : String) : String := ⟨escapeNewlines s.data⟩

/-- The per-index attachment color switch in `publishIndividualSummary`. -/
def attachmentColor (i : Nat) : String :=
  if i = 0 then "#00BFFF" else if i = 1 then "#32CD32" else if i = 2 then "#FFD700"
  else "#808080"

/-- `answers.map((ans, i) => ({ color, title: questions[i], text:
formattedAnswer }))`, written with an explicit running index.  `questions[i]`
is `undefined` past the end in JS; rendered as `""` here (unreachable when
the record satisfies the store invariant). -/
def buildAttachments (questions : List String) : Nat → List String → List Attachment
  | _, [] => []
  | i, ans :: rest =>
    { color := attachmentColor i, title := questions.getD i "", text := formatAnswer ans }
      :: buildAttachments questions (i + 1) rest

/-- `publishIndividualSummary(userResponse)`: parses the `answers` column
(`JSON.parse(userResponse.answers)`, which faults on a `NULL` column — the
`none` result) and posts one `chat.postMessage` with the banner text and one
attachment per answer. -/
def publishIndividualSummary (userResponse : ResponseRecord) : Option Event :=
  match userResponse.answers with
  | none => none
  | some answers =>
    some (Event.channelPost userResponse.id
      ("--- @" ++ userResponse.username ++ " has completed his standup ---\n")
      (buildAttachments userResponse.questions 0 answers))

/-- The one-time instructional banner prefixed to the very first question. -/
def standupBanner (username : String) : String :=
  "Hi " ++ username ++
    "! It\x27s time for today\x27s standup. You can type **\x27skip\x27** at any time to skip. Please note that answers **cannot** be edited.\n\n"

/-- `askNextQuestion(userId)`: load the most recent pending record for the
user (silent no-op if none); with `i = answers.length`, either DM question
`questions[i]` (banner-prefixed iff `i = 0`), or — all questions answered —
set the status to `'answered'` and publish the individual summary (whose own
parse of a `NULL` answers column would throw after the status update has
committed, suppressing the post). -/
def askNextQuestion (userId : String) (db : DB) : DB × List Event :=
  match latestPendingFor userId db with
  | none => (db, [])
  | some userResponse =>
    let answers := userResponse.answers.getD []
    let questions := userResponse.questions
    let currentQuestionIndex := answers.length
    if h : currentQuestionIndex < questions.length then
      let nextQuestion := questions.get ⟨currentQuestionIndex, h⟩
      let messageText :=
        if currentQuestionIndex = 0 then
          standupBanner userResponse.username ++ "- " ++ nextQuestion
        else "- " ++ nextQuestion
      (db, [Event.dm userId messageText])
    else
      let db2 := updateStatus userResponse.id Status.answered db
      match publishIndividualSummary userResponse with
      | some ev => (db2, [ev])
      | none => (db2, [])

/-- `processStandupResponse(message)`: match the inbound DM to the most
recent pending record (ignored if none).  On `'skip'` (case-insensitive,
whitespace-trimmed): set status `'skipped'`, DM an acknowledgment, post a
notice to the summary channel.  Otherwise: `JSON.parse(userResponse.answers)`
— unguarded, so a `NULL` column faults (`none` result) — push the text
verbatim, store it, and continue with `askNextQuestion`. -/
def processStandupResponse (userId text : String) (db : DB) : Option (DB × List Event) :=
  match latestPendingFor userId db with
  | none => some (db, [])
  | some userResponse =>
    if isSkipText text then
      some (updateStatus userResponse.id Status.skipped db,
        [Event.dm userId "You have skipped today\x27s standup. Thank you.",
         Event.channelMsg ("@" ++ userResponse.username ++ " has skipped his standup.")])
    else
      match userResponse.answers with
      | none => none
      | some answers =>
        let newAnswers := answers ++ [text]
        some (askNextQuestion userId (updateAnswers userResponse.id newAnswers db))

/- ### Orchestrator and rollup -/

/-- The body of the fan-out loop for one member: insert the pending response
row, then `askNextQuestion(member._id)` (the 5-second pacing delay is
external). -/
def promptMember (standupId : Nat) (qs : List String) (db : DB) (member : Member) :
    DB × List Event :=
  let db1 := (insertResponse standupId member qs db).1
  askNextQuestion member._id db1

/-- `for (const member of VALID_STANDUP_MEMBERS) { ... }` in `prompt`. -/
def fanOutLoop (standupId : Nat) (qs : List String) : List Member → DB → DB × List Event
  | [], db => (db, [])
  | m :: ms, db =>
    let r1 := promptMember standupId qs db m
    let r2 := fanOutLoop standupId qs ms r1.1
    (r2.1, r1.2 ++ r2.2)

/-- `promptUsersForStandup()`: get-or-create the session for today, then fan out
to every valid member.  (Arming the delayed `publishStandupSummary` timer is
external; the rollup appears as its own operation.) -/
def promptUsersForStandup (today : String) (members : List Member) (qs : List String)
    (db : DB) : DB × List Event :=
  match getOrCreateSession today db with
  | (db1, some standupId) => fanOutLoop standupId qs members db1
  | (db1, none) => (db1, [])

/-- The rollup query: `SELECT r.username, r.status FROM responses r JOIN
standups s ON r.standup_id = s.id WHERE s.standup_date = ? AND (r.status =
'pending' OR r.status = 'skipped')`, with `?` the date at query time. -/
def nonRespondents (today : String) (db : DB) : List ResponseRecord :=
  db.responses.filter (fun r =>
    db.standups.any (fun s => decide (s.id = r.standup_id) && decide (s.standup_date = today)) &&
      (decide (r.status = Status.pending) || decide (r.status = Status.skipped)))

/-- One line of the final summary: `@user: Skipped the standup.` for a
skipped row, `@user: Did not respond.` otherwise. -/
def rollupLine (r : ResponseRecord) : String :=
  if r.status = Status.skipped then "@" ++ r.username ++ ": Skipped the standup.\n\n"
  else "@" ++ r.username ++ ": Did not respond.\n\n"

/-- `publishStandupSummary()`: query the pending-or-skipped rows for the
current date; post nothing if there are none, otherwise post a single channel
message accumulating one line per row. -/
def publishStandupSummary (today : String) (db : DB) : List Event :=
  let rows := nonRespondents today db
  if rows.isEmpty then []
  else
    [Event.channelMsg (rows.foldl (fun acc r => acc ++ rollupLine r) "Daily Standup Summary\n\n")]

/- ### Operational semantics: which handler fires -/

/-- One atomic operation of the bot: a scheduler firing of
`promptUsersForStandup` (the configured question list `QUESTIONS.split(';')`
is never the empty array, whence `hqs`), an inbound DM processed by
`processStandupResponse` (which must not fault), or the delayed
`publishStandupSummary`. -/
inductive Step : DB → DB → List Event → Prop where
  | fanOut (today : String) (members : List Member) (qs : List String) (hqs : qs ≠ [])
      (db : DB) :
      Step db (promptUsersForStandup today members qs db).1
        (promptUsersForStandup today members qs db).2
  | inbound (userId text : String) (db db' : DB) (evs : List Event)
      (h : processStandupResponse userId text db = some (db', evs)) :
      Step db db' evs
  | rollup (today : String) (db : DB) :
      Step db db (publishStandupSummary today db)

/-- Database states reachable from the fresh database. -/
inductive Reachable : DB → Prop where
  | init : Reachable initDB
  | step {db db' : DB} {evs : List Event} : Reachable db → Step db db' evs → Reachable db'

/-- A reachable state together with the accumulated list of emitted events. -/
inductive Trace : DB → List Event → Prop where
  | init : Trace initDB []
  | step {db db' : DB} {evs evs' : List Event} :
      Trace db evs → Step db db' evs' → Trace db' (evs ++ evs')

/- ### The store invariant -/

/-- Per-row invariant: the id is below the autoincrement counter, the
`answers` column is a non-`NULL` serialized array no longer than the question
snapshot, full exactly when the row is `answered`, strictly partial while
`pending`. -/
def RecordInv (nextId : Nat) (r : ResponseRecord) : Prop :=
  r.id < nextId ∧
    ∃ l, r.answers = some l ∧
      l.length ≤ r.questions.length ∧
      (r.status = Status.answered → l.length = r.questions.length) ∧
      (r.status = Status.pending → l.length < r.questions.length)

/-- The database invariant: response ids pairwise distinct, standup dates
pairwise distinct, and every response row well-formed. -/
def DBInv (db : DB) : Prop :=
  (db.responses.map (fun r => r.id)).Nodup ∧
    (db.standups.map (fun s => s.standup_date)).Nodup ∧
    ∀ r ∈ db.responses, RecordInv db.nextResponseId r

theorem dbInv_initDB : DBInv initDB := by
  refine ⟨List.nodup_nil, List.nodup_nil, ?_⟩
  intro r hr
  simp [initDB] at hr

/- ### Observations of the database -/

/-- The status of the row with primary key `rid`, if it exists. -/
def statusOf (rid : Nat) (db : DB) : Option Status :=
  (db.responses.find? (fun r => decide (r.id = rid))).map (fun r => r.status)

/-- The `answers` column of the row with primary key `rid`, if the row
exists (`some none` = the row exists with a `NULL` column). -/
def answersOf (rid : Nat) (db : DB) : Option (Option (List String)) :=
  (db.responses.find? (fun r => decide (r.id = rid))).map (fun r => r.answers)

/-- Whether some row with id `rid` has status `'answered'`. -/
def answeredIn (db : DB) (rid : Nat) : Bool :=
  db.responses.any (fun r => decide (r.id = rid) && decide (r.status = Status.answered))

/-- Recognize the individual-summary post for record `rid`. -/
def isPostFor (rid : Nat) : Event → Bool
  | Event.channelPost rid' _ _ => decide (rid' = rid)
  | _ => false

/-- How many individual-summary posts for record `rid` a list of events holds. -/
def countPost (rid : Nat) (evs : List Event) : Nat := evs.countP (isPostFor rid)

theorem countPost_append (rid : Nat) (evs evs' : List Event) :
    countPost rid (evs ++ evs') = countPost rid evs + countPost rid evs' :=
  List.countP_append _ _ _

/- ### List-level helper lemmas -/

theorem selectLatest_mem : ∀ {rs : List ResponseRecord} {r : ResponseRecord},
    selectLatest rs = some r → r ∈ rs := by
  intro rs
  induction rs with
  | nil => intro r h; simp [selectLatest] at h
  | cons a as ih =>
    intro r h
    simp only [selectLatest] at h
    cases hs : selectLatest as with
    | none => rw [hs] at h; simp only [Option.some.injEq] at h; subst h; exact List.mem_cons_self a as
    | some m =>
      rw [hs] at h
      dsimp only at h
      by_cases hlt : a.id < m.id
      · rw [if_pos hlt] at h
        simp only [Option.some.injEq] at h; subst h
        exact List.mem_cons_of_mem a (ih hs)
      · rw [if_neg hlt] at h
        simp only [Option.some.injEq] at h; subst h
        exact List.mem_cons_self a as

theorem selectLatest_map {g : ResponseRecord → ResponseRecord}
    (hid : ∀ x, (g x).id = x.id) :
    ∀ (rs : List ResponseRecord), selectLatest (rs.map g) = (selectLatest rs).map g := by
  intro rs
  induction rs with
  | nil => rfl
  | cons a as ih =>
    simp only [List.map_cons, selectLatest, ih]
    cases selectLatest as with
    | none => rfl
    | some m =>
      simp only [Option.map_some']
      rw [hid a, hid m]
      by_cases hlt : a.id < m.id
      · rw [if_pos hlt, if_pos hlt]; rfl
      · rw [if_neg hlt, if_neg hlt]; rfl

theorem filter_map_pred {g : ResponseRecord → ResponseRecord} {p : ResponseRecord → Bool}
    (hp : ∀ x, p (g x) = p x) :
    ∀ (l : List ResponseRecord), (l.map g).filter p = (l.filter p).map g := by
  intro l
  induction l with
  | nil => rfl
  | cons a as ih =>
    simp only [List.map_cons, List.filter_cons, hp a]
    cases hpa : p a <;> simp [ih]

theorem find?_id_map {g : ResponseRecord → ResponseRecord} (hid : ∀ x, (g x).id = x.id)
    (l : List ResponseRecord) (rid : Nat) :
    (l.map g).find? (fun r => decide (r.id = rid)) =
      (l.find? (fun r => decide (r.id = rid))).map g := by
  rw [List.find?_map]
  have hfun : ((fun r => decide (r.id = rid)) ∘ g) = (fun r : ResponseRecord => decide (r.id = rid)) := by
    funext x
    simp [Function.comp, hid x]
  rw [hfun]

theorem eq_of_same_id {db : DB} (hnd : (db.responses.map (fun r => r.id)).Nodup)
    {a b : ResponseRecord} (ha : a ∈ db.responses) (hb : b ∈ db.responses)
    (hab : a.id = b.id) : a = b :=
  List.inj_on_of_nodup_map hnd ha hb hab

/- ### `latestPendingFor` and the update operations -/

theorem latestPendingFor_spec {u : String} {db : DB} {r : ResponseRecord}
    (h : latestPendingFor u db = some r) :
    r ∈ db.responses ∧ r.user_id = u ∧ r.status = Status.pending := by
  have hm := selectLatest_mem h
  rw [List.mem_filter] at hm
  obtain ⟨h1, h2⟩ := hm
  simp only [Bool.and_eq_true, decide_eq_true_eq] at h2
  exact ⟨h1, h2.1, h2.2⟩

theorem latestPendingFor_updateAnswers {u : String} {db : DB} {r : ResponseRecord}
    {nl : List String} (h : latestPendingFor u db = some r) :
    latestPendingFor u (updateAnswers r.id nl db) = some { r with answers := some nl } := by
  have hid : ∀ x : ResponseRecord,
      ((fun x => if x.id = r.id then { x with answers := some nl } else x) x).id = x.id := by
    intro x; by_cases hx : x.id = r.id <;> simp [hx]
  have hp : ∀ x : ResponseRecord,
      (decide (((fun x => if x.id = r.id then { x with answers := some nl } else x) x).user_id = u) &&
        decide (((fun x => if x.id = r.id then { x with answers := some nl } else x) x).status = Status.pending)) =
      (decide (x.user_id = u) && decide (x.status = Status.pending)) := by
    intro x; by_cases hx : x.id = r.id <;> simp [hx]
  show selectLatest (((updateAnswers r.id nl db).responses).filter _) = _
  rw [show (updateAnswers r.id nl db).responses =
      db.responses.map (fun x => if x.id = r.id then { x with answers := some nl } else x) from rfl]
  rw [filter_map_pred hp, selectLatest_map hid]
  rw [show selectLatest (db.responses.filter
      (fun x => decide (x.user_id = u) && decide (x.status = Status.pending))) =
      latestPendingFor u db from rfl]
  rw [h, Option.map_some']
  simp

theorem responses_updateStatus (i : Nat) (σ : Status) (db : DB) :
    (updateStatus i σ db).responses = db.responses.map (fun x => if x.id = i then { x with status := σ } else x) := rfl

theorem responses_updateAnswers (i : Nat) (nl : List String) (db : DB) :
    (updateAnswers i nl db).responses = db.responses.map (fun x => if x.id = i then { x with answers := some nl } else x) := rfl

theorem statusOf_mem {rid : Nat} {db : DB} {s : Status} (h : statusOf rid db = some s) :
    ∃ r ∈ db.responses, r.id = rid ∧ r.status = s := by
  unfold statusOf at h
  cases hf : db.responses.find? (fun r => decide (r.id = rid)) with
  | none => rw [hf] at h; simp at h
  | some r =>
    rw [hf] at h
    simp only [Option.map_some', Option.some.injEq] at h
    have hm := List.mem_of_find?_eq_some hf
    have hp := List.find?_some hf
    simp only [decide_eq_true_eq] at hp
    exact ⟨r, hm, hp, h⟩

theorem statusOf_updateStatus {rid i : Nat} {σ : Status} {db : DB} :
    statusOf rid (updateStatus i σ db) =
      (statusOf rid db).map (fun s => if rid = i then σ else s) := by
  have hid : ∀ x : ResponseRecord,
      ((fun x => if x.id = i then { x with status := σ } else x) x).id = x.id := by
    intro x; by_cases hx : x.id = i <;> simp [hx]
  unfold statusOf
  rw [responses_updateStatus, find?_id_map hid]
  cases hf2 : db.responses.find? (fun r => decide (r.id = rid)) with
  | none => simp
  | some r =>
    have hp := List.find?_some hf2
    simp only [decide_eq_true_eq] at hp
    simp only [Option.map_some', Option.some.injEq]
    by_cases hri : rid = i
    · simp [hp, hri]
    · simp [hp, hri]

theorem answersOf_updateStatus {rid i : Nat} {σ : Status} {db : DB} :
    answersOf rid (updateStatus i σ db) = answersOf rid db := by
  have hid : ∀ x : ResponseRecord,
      ((fun x => if x.id = i then { x with status := σ } else x) x).id = x.id := by
    intro x; by_cases hx : x.id = i <;> simp [hx]
  unfold answersOf
  rw [responses_updateStatus, find?_id_map hid]
  cases hf : db.responses.find? (fun r => decide (r.id = rid)) with
  | none => simp
  | some r =>
    simp only [Option.map_some', Option.some.injEq]
    by_cases hx : r.id = i <;> simp [hx]

theorem statusOf_updateAnswers {rid i : Nat} {nl : List String} {db : DB} :
    statusOf rid (updateAnswers i nl db) = statusOf rid db := by
  have hid : ∀ x : ResponseRecord,
      ((fun x => if x.id = i then { x with answers := some nl } else x) x).id = x.id := by
    intro x; by_cases hx : x.id = i <;> simp [hx]
  unfold statusOf
  rw [responses_updateAnswers, find?_id_map hid]
  cases hf : db.responses.find? (fun r => decide (r.id = rid)) with
  | none => simp
  | some r =>
    simp only [Option.map_some', Option.some.injEq]
    by_cases hx : r.id = i <;> simp [hx]

theorem answersOf_updateAnswers_self {db : DB} {r0 : ResponseRecord} {nl : List String}
    (h0 : r0 ∈ db.responses) :
    answersOf r0.id (updateAnswers r0.id nl db) = some (some nl) := by
  have hid : ∀ x : ResponseRecord,
      ((fun x => if x.id = r0.id then { x with answers := some nl } else x) x).id = x.id := by
    intro x; by_cases hx : x.id = r0.id <;> simp [hx]
  unfold answersOf
  rw [responses_updateAnswers, find?_id_map hid]
  cases hf : db.responses.find? (fun r => decide (r.id = r0.id)) with
  | none =>
    exfalso
    rw [List.find?_eq_none] at hf
    exact hf r0 h0 (by simp)
  | some r =>
    have hp := List.find?_some hf
    simp only [decide_eq_true_eq] at hp
    simp [hp]

theorem any_congr_mem {α : Type} {p q : α → Bool} :
    ∀ {l : List α}, (∀ x ∈ l, p x = q x) → l.any p = l.any q := by
  intro l
  induction l with
  | nil => intro _; rfl
  | cons a as ih =>
    intro h
    simp only [List.any_cons, h a (List.mem_cons_self a as)]
    rw [ih (fun x hx => h x (List.mem_cons_of_mem a hx))]

theorem answeredIn_updateAnswers {i : Nat} {nl : List String} {db : DB} {rid : Nat} :
    answeredIn (updateAnswers i nl db) rid = answeredIn db rid := by
  unfold answeredIn
  rw [responses_updateAnswers, List.any_map]
  apply any_congr_mem
  intro x _
  by_cases hx : x.id = i <;> simp [Function.comp, hx]

theorem answeredIn_updateStatus_of_ne_answered {i : Nat} {σ : Status} {db : DB} {rid : Nat}
    (hσ : σ ≠ Status.answered)
    (hpend : ∀ r ∈ db.responses, r.id = i → r.status ≠ Status.answered) :
    answeredIn (updateStatus i σ db) rid = answeredIn db rid := by
  unfold answeredIn
  rw [responses_updateStatus, List.any_map]
  apply any_congr_mem
  intro x hx
  by_cases hxi : x.id = i
  · simp only [Function.comp, hxi, if_pos rfl]
    simp [hσ, hpend x hx hxi]
  · simp [Function.comp, hxi]

theorem answeredIn_updateStatus_answered_self {i : Nat} {db : DB} {r0 : ResponseRecord}
    (h0 : r0 ∈ db.responses) (hid0 : r0.id = i) :
    answeredIn (updateStatus i Status.answered db) i = true := by
  unfold answeredIn
  rw [responses_updateStatus, List.any_eq_true]
  refine ⟨(fun x => if x.id = i then { x with status := Status.answered } else x) r0,
    List.mem_map_of_mem _ h0, ?_⟩
  simp [hid0]

theorem answeredIn_updateStatus_answered_other {i rid : Nat} {db : DB} (hne : rid ≠ i) :
    answeredIn (updateStatus i Status.answered db) rid = answeredIn db rid := by
  unfold answeredIn
  rw [responses_updateStatus, List.any_map]
  apply any_congr_mem
  intro x _
  simp only [Function.comp]
  by_cases hxi : x.id = i
  · simp [hxi, Ne.symm hne]
  · simp [hxi]

theorem answeredIn_eq_false_of_unique_pending {db : DB} {r0 : ResponseRecord}
    (hnd : (db.responses.map (fun r => r.id)).Nodup) (h0 : r0 ∈ db.responses)
    (hp : r0.status ≠ Status.answered) : answeredIn db r0.id = false := by
  unfold answeredIn
  rw [List.any_eq_false]
  intro x hx
  simp only [Bool.and_eq_true, decide_eq_true_eq, not_and]
  intro hid
  have : x = r0 := eq_of_same_id hnd hx h0 hid
  rw [this]
  exact hp

/- ### Invariance of the store operations -/

theorem recordInv_mono {n n' : Nat} (h : n ≤ n') {r : ResponseRecord}
    (hr : RecordInv n r) : RecordInv n' r :=
  ⟨Nat.lt_of_lt_of_le hr.1 h, hr.2⟩

theorem insertResponse_dbInv {db : DB} {sid : Nat} {m : Member} {qs : List String}
    (hqs : qs ≠ []) (hinv : DBInv db) : DBInv (insertResponse sid m qs db).1 := by
  obtain ⟨hids, hdates, hrec⟩ := hinv
  refine ⟨?_, hdates, ?_⟩
  · rw [show (insertResponse sid m qs db).1.responses =
      db.responses ++ [newResponse sid m qs db.nextResponseId] from rfl]
    rw [List.map_append, List.nodup_append]
    refine ⟨hids, by simp, ?_⟩
    intro x hx
    simp only [List.map_cons, List.map_nil, List.mem_singleton] at *
    intro hx1
    rw [List.mem_map] at hx
    obtain ⟨r, hr, hrx⟩ := hx
    subst hx1
    have := (hrec r hr).1
    rw [show (newResponse sid m qs db.nextResponseId).id = db.nextResponseId from rfl] at hrx
    omega
  · intro r hr
    rw [show (insertResponse sid m qs db).1.responses =
      db.responses ++ [newResponse sid m qs db.nextResponseId] from rfl] at hr
    rw [List.mem_append] at hr
    rcases hr with hr | hr
    · exact recordInv_mono (Nat.le_succ _) (hrec r hr)
    · rw [List.mem_singleton] at hr
      subst hr
      refine ⟨Nat.lt_succ_self _, [], rfl, by simp, ?_, ?_⟩
      · intro h; cases h
      · intro _
        simp only [List.length_nil]
        exact List.length_pos.mpr hqs

theorem getOrCreateSession_dbInv {date : String} {db : DB} (hinv : DBInv db) :
    DBInv (getOrCreateSession date db).1 ∧
      (getOrCreateSession date db).1.responses = db.responses ∧
      (getOrCreateSession date db).1.nextResponseId = db.nextResponseId := by
  obtain ⟨hids, hdates, hrec⟩ := hinv
  unfold getOrCreateSession insertStandupRun
  by_cases hex : db.standups.any (fun s => decide (s.standup_date = date))
  · rw [if_pos hex]
    exact ⟨⟨hids, hdates, hrec⟩, rfl, rfl⟩
  · rw [if_neg hex]
    refine ⟨⟨hids, ?_, hrec⟩, rfl, rfl⟩
    rw [List.map_append, List.nodup_append]
    refine ⟨hdates, by simp, ?_⟩
    intro x hx
    simp only [List.map_cons, List.map_nil, List.mem_singleton]
    intro hx1
    subst hx1
    rw [List.mem_map] at hx
    obtain ⟨s, hs, hsx⟩ := hx
    rw [Bool.not_eq_true, List.any_eq_false] at hex
    have := hex s hs
    simp only [decide_eq_true_eq] at this
    exact this hsx

/- ### Characterizations of `askNextQuestion` -/

theorem askNext_of_dbInv {db : DB} (hinv : DBInv db) (u : String) :
    (askNextQuestion u db).1 = db ∧
      ∀ rid, countPost rid (askNextQuestion u db).2 = 0 := by
  unfold askNextQuestion
  cases hlp : latestPendingFor u db with
  | none => exact ⟨rfl, fun rid => rfl⟩
  | some r =>
    obtain ⟨hmem, _, hstat⟩ := latestPendingFor_spec hlp
    obtain ⟨-, l, hans, -, -, hpend⟩ := hinv.2.2 r hmem
    have hlt : (r.answers.getD []).length < r.questions.length := by
      rw [hans, Option.getD_some]
      exact hpend hstat
    dsimp only
    rw [dif_pos hlt]
    exact ⟨rfl, fun rid => rfl⟩

theorem askNext_asks {u : String} {db : DB} {r : ResponseRecord}
    (hlp : latestPendingFor u db = some r)
    (hlt : (r.answers.getD []).length < r.questions.length) :
    askNextQuestion u db = (db,
      [Event.dm u (if (r.answers.getD []).length = 0 then
          standupBanner r.username ++ "- " ++ r.questions.get ⟨(r.answers.getD []).length, hlt⟩
        else "- " ++ r.questions.get ⟨(r.answers.getD []).length, hlt⟩)]) := by
  unfold askNextQuestion
  rw [hlp]
  dsimp only
  rw [dif_pos hlt]

theorem askNext_completes {u : String} {db : DB} {r : ResponseRecord} {l : List String}
    (hlp : latestPendingFor u db = some r) (hans : r.answers = some l)
    (hfull : ¬ l.length < r.questions.length) :
    askNextQuestion u db =
      (updateStatus r.id Status.answered db,
       [Event.channelPost r.id ("--- @" ++ r.username ++ " has completed his standup ---\n")
          (buildAttachments r.questions 0 l)]) := by
  unfold askNextQuestion
  rw [hlp]
  dsimp only
  have hfull' : ¬ (r.answers.getD []).length < r.questions.length := by
    rw [hans, Option.getD_some]; exact hfull
  rw [dif_neg hfull']
  unfold publishIndividualSummary
  rw [hans]

theorem askNext_fst {u : String} {d : DB} :
    (askNextQuestion u d).1 = d ∨
      ∃ i, (askNextQuestion u d).1 = updateStatus i Status.answered d := by
  unfold askNextQuestion
  cases hlp : latestPendingFor u d with
  | none => exact Or.inl rfl
  | some r =>
    dsimp only
    by_cases h : (r.answers.getD []).length < r.questions.length
    · rw [dif_pos h]
      exact Or.inl rfl
    · rw [dif_neg h]
      refine Or.inr ⟨r.id, ?_⟩
      cases publishIndividualSummary r <;> rfl

theorem map_ids_map {g : ResponseRecord → ResponseRecord} (hid : ∀ x, (g x).id = x.id)
    (l : List ResponseRecord) : (l.map g).map (fun r => r.id) = l.map (fun r => r.id) := by
  rw [List.map_map]
  apply List.map_congr_left
  intro x _
  exact hid x

theorem dbInv_of_map {db : DB} {g : ResponseRecord → ResponseRecord}
    (hinv : DBInv db) (hid : ∀ x, (g x).id = x.id)
    (hrow : ∀ x ∈ db.responses, RecordInv db.nextResponseId (g x))
    {db' : DB} (hresp : db'.responses = db.responses.map g)
    (hstand : db'.standups = db.standups) (hnext : db'.nextResponseId = db.nextResponseId) :
    DBInv db' := by
  obtain ⟨hids, hdates, hrec⟩ := hinv
  refine ⟨?_, ?_, ?_⟩
  · rw [hresp, map_ids_map hid]
    exact hids
  · rw [hstand]
    exact hdates
  · intro r hr
    rw [hresp, List.mem_map] at hr
    obtain ⟨x, hx, hgx⟩ := hr
    rw [hnext, ← hgx]
    exact hrow x hx

theorem terminal_mem_updateStatus {db : DB} {r0 : ResponseRecord} {σ : Status}
    (hnd : (db.responses.map (fun r => r.id)).Nodup) (h0 : r0 ∈ db.responses)
    (hp0 : r0.status = Status.pending) :
    ∀ r ∈ db.responses, r.status ≠ Status.pending → r ∈ (updateStatus r0.id σ db).responses := by
  intro r hr hrs
  rw [responses_updateStatus]
  have hne : r.id ≠ r0.id := by
    intro h
    exact hrs (by rw [eq_of_same_id hnd hr h0 h]; exact hp0)
  have hfix : (fun x => if x.id = r0.id then { x with status := σ } else x) r = r := if_neg hne
  exact hfix ▸ List.mem_map_of_mem _ hr

theorem terminal_mem_updateAnswers {db : DB} {r0 : ResponseRecord} {nl : List String}
    (hnd : (db.responses.map (fun r => r.id)).Nodup) (h0 : r0 ∈ db.responses)
    (hp0 : r0.status = Status.pending) :
    ∀ r ∈ db.responses, r.status ≠ Status.pending → r ∈ (updateAnswers r0.id nl db).responses := by
  intro r hr hrs
  rw [responses_updateAnswers]
  have hne : r.id ≠ r0.id := by
    intro h
    exact hrs (by rw [eq_of_same_id hnd hr h0 h]; exact hp0)
  have hfix : (fun x => if x.id = r0.id then { x with answers := some nl } else x) r = r :=
    if_neg hne
  exact hfix ▸ List.mem_map_of_mem _ hr

theorem countPost_cons_dm {rid : Nat} {a b : String} {evs : List Event} :
    countPost rid (Event.dm a b :: evs) = countPost rid evs := by
  simp [countPost, List.countP_cons, isPostFor]

theorem countPost_cons_msg {rid : Nat} {a : String} {evs : List Event} :
    countPost rid (Event.channelMsg a :: evs) = countPost rid evs := by
  simp [countPost, List.countP_cons, isPostFor]

theorem countPost_cons_post {rid i : Nat} {h : String} {atts : List Attachment}
    {evs : List Event} :
    countPost rid (Event.channelPost i h atts :: evs) =
      countPost rid evs + (if i = rid then 1 else 0) := by
  simp only [countPost, List.countP_cons, isPostFor]
  by_cases hir : i = rid <;> simp [hir]

/-- Specification of one inbound-message step: the invariant is preserved,
terminal rows are untouched, any status change is `pending → terminal`, and
an individual summary is posted exactly for the row that reaches
`answered`. -/
theorem inbound_spec {u t : String} {db db' : DB} {evs : List Event}
    (hinv : DBInv db) (hp : processStandupResponse u t db = some (db', evs)) :
    DBInv db' ∧
      (∀ r ∈ db.responses, r.status ≠ Status.pending → r ∈ db'.responses) ∧
      (∀ rid s s', statusOf rid db = some s → statusOf rid db' = some s' → s ≠ s' →
        s = Status.pending ∧ s' ≠ Status.pending) ∧
      (∀ rid, countPost rid evs + (if answeredIn db rid = true then 1 else 0) =
        (if answeredIn db' rid = true then 1 else 0)) := by
  unfold processStandupResponse at hp
  cases hlp : latestPendingFor u db with
  | none =>
    rw [hlp] at hp
    simp only [Option.some.injEq, Prod.mk.injEq] at hp
    obtain ⟨h1, h2⟩ := hp
    subst h1
    subst h2
    refine ⟨hinv, fun r hr _ => hr, ?_, ?_⟩
    · intro rid s s' hs hs' hss
      exact absurd (by rw [hs] at hs'; exact (Option.some.injEq _ _).mp hs') hss
    · intro rid
      simp [countPost]
  | some r0 =>
    rw [hlp] at hp
    dsimp only at hp
    obtain ⟨hmem, huser, hstat⟩ := latestPendingFor_spec hlp
    obtain ⟨hid0, l0, hans0, hle0, _, hpl0⟩ := hinv.2.2 r0 hmem
    have hlt0 : l0.length < r0.questions.length := hpl0 hstat
    by_cases hskip : isSkipText t = true
    · rw [if_pos hskip] at hp
      simp only [Option.some.injEq, Prod.mk.injEq] at hp
      obtain ⟨h1, h2⟩ := hp
      subst h1
      subst h2
      refine ⟨?_, terminal_mem_updateStatus hinv.1 hmem hstat, ?_, ?_⟩
      · refine dbInv_of_map hinv ?_ ?_ (responses_updateStatus _ _ _) rfl rfl
        · intro x
          by_cases hx : x.id = r0.id <;> simp [hx]
        · intro x hx
          by_cases hxi : x.id = r0.id
          · have hx0 : x = r0 := eq_of_same_id hinv.1 hx hmem hxi
            subst hx0
            rw [if_pos hxi]
            refine ⟨hid0, l0, hans0, Nat.le_of_lt hlt0, ?_, ?_⟩
            · intro h
              exact absurd h (by simp)
            · intro h
              exact absurd h (by simp)
          · rw [if_neg hxi]
            exact hinv.2.2 x hx
      · intro rid s s' hs hs' hss
        rw [statusOf_updateStatus, hs, Option.map_some', Option.some.injEq] at hs'
        by_cases hrip : rid = r0.id
        · rw [if_pos hrip] at hs'
          obtain ⟨x, hxm, hxi, hxs⟩ := statusOf_mem hs
          have hx0 : x = r0 := eq_of_same_id hinv.1 hxm hmem (by rw [hxi, hrip])
          refine ⟨by rw [← hxs, hx0]; exact hstat, by rw [← hs']; simp⟩
        · rw [if_neg hrip] at hs'
          exact absurd hs' hss
      · intro rid
        rw [countPost_cons_dm, countPost_cons_msg]
        have : answeredIn (updateStatus r0.id Status.skipped db) rid = answeredIn db rid := by
          apply answeredIn_updateStatus_of_ne_answered
          · simp
          · intro r hr hri
            rw [eq_of_same_id hinv.1 hr hmem hri, hstat]
            simp
        rw [this]
        simp [countPost]
    · rw [if_neg hskip] at hp
      cases hans : r0.answers with
      | none => rw [hans] at hans0; cases hans0
      | some l0x =>
        rw [hans] at hp
        dsimp only at hp
        have hl0x : l0 = l0x := by
          rw [hans] at hans0
          exact ((Option.some.injEq _ _).mp hans0).symm
        subst hl0x
        simp only [Option.some.injEq] at hp
        have hlp2 : latestPendingFor u (updateAnswers r0.id (l0 ++ [t]) db) =
            some { r0 with answers := some (l0 ++ [t]) } :=
          latestPendingFor_updateAnswers hlp
        by_cases hlt2 : (l0 ++ [t]).length < r0.questions.length
        · have hlt2' : (({ r0 with answers := some (l0 ++ [t]) } : ResponseRecord).answers.getD []).length <
              ({ r0 with answers := some (l0 ++ [t]) } : ResponseRecord).questions.length := by
            simpa using hlt2
          rw [askNext_asks hlp2 hlt2'] at hp
          simp only [Prod.mk.injEq] at hp
          obtain ⟨h1, h2⟩ := hp
          subst h1
          subst h2
          refine ⟨?_, terminal_mem_updateAnswers hinv.1 hmem hstat, ?_, ?_⟩
          · refine dbInv_of_map hinv ?_ ?_ (responses_updateAnswers _ _ _) rfl rfl
            · intro x
              by_cases hx : x.id = r0.id <;> simp [hx]
            · intro x hx
              by_cases hxi : x.id = r0.id
              · have hx0 : x = r0 := eq_of_same_id hinv.1 hx hmem hxi
                subst hx0
                rw [if_pos hxi]
                refine ⟨hid0, l0 ++ [t], rfl, Nat.le_of_lt hlt2, ?_, fun _ => hlt2⟩
                intro h
                rw [show ({ x with answers := some (l0 ++ [t]) } : ResponseRecord).status = x.status from rfl, hstat] at h
                cases h
              · rw [if_neg hxi]
                exact hinv.2.2 x hx
          · intro rid s s' hs hs' hss
            rw [statusOf_updateAnswers, hs, Option.some.injEq] at hs'
            exact absurd hs' hss
          · intro rid
            rw [countPost_cons_dm]
            rw [answeredIn_updateAnswers]
            simp [countPost]
        · have hfull2 : ¬ (l0 ++ [t]).length <
              ({ r0 with answers := some (l0 ++ [t]) } : ResponseRecord).questions.length := hlt2
          rw [askNext_completes hlp2 rfl hfull2] at hp
          simp only [Prod.mk.injEq] at hp
          obtain ⟨h1, h2⟩ := hp
          subst h1
          subst h2
          have hfulleq : (l0 ++ [t]).length = r0.questions.length := by
            have h1 : l0.length + 1 ≤ r0.questions.length := Nat.succ_le_of_lt hlt0
            have h2 : (l0 ++ [t]).length = l0.length + 1 := by simp
            omega
          have hr0mem2 : ({ r0 with answers := some (l0 ++ [t]) } : ResponseRecord) ∈
              (updateAnswers r0.id (l0 ++ [t]) db).responses := by
            rw [responses_updateAnswers]
            have : (fun x => if x.id = r0.id then { x with answers := some (l0 ++ [t]) } else x) r0 =
                { r0 with answers := some (l0 ++ [t]) } := if_pos rfl
            exact this ▸ List.mem_map_of_mem _ hmem
          have hnd2 : ((updateAnswers r0.id (l0 ++ [t]) db).responses.map (fun r => r.id)).Nodup := by
            rw [responses_updateAnswers, map_ids_map]
            · exact hinv.1
            · intro x
              by_cases hx : x.id = r0.id <;> simp [hx]
          refine ⟨?_, ?_, ?_, ?_⟩
          · refine dbInv_of_map (g := fun x => if x.id = r0.id then
                { x with answers := some (l0 ++ [t]), status := Status.answered } else x)
              hinv ?_ ?_ ?_ rfl rfl
            · intro x
              by_cases hx : x.id = r0.id <;> simp [hx]
            · intro x hx
              dsimp only
              by_cases hxi : x.id = r0.id
              · have hx0 : x = r0 := eq_of_same_id hinv.1 hx hmem hxi
                subst hx0
                rw [if_pos hxi]
                exact ⟨hid0, l0 ++ [t], rfl, Nat.le_of_eq hfulleq, fun _ => hfulleq,
                  fun h => absurd h (by simp)⟩
              · rw [if_neg hxi]
                exact hinv.2.2 x hx
            · rw [responses_updateStatus, responses_updateAnswers, List.map_map]
              apply List.map_congr_left
              intro x _
              by_cases hxi : x.id = r0.id
              · simp [Function.comp, hxi]
              · simp [Function.comp, hxi]
          · intro r hr hrs
            have hr2 : r ∈ (updateAnswers r0.id (l0 ++ [t]) db).responses :=
              terminal_mem_updateAnswers hinv.1 hmem hstat r hr hrs
            exact terminal_mem_updateStatus hnd2 hr0mem2 hstat r hr2 hrs
          · intro rid s s' hs hs' hss
            rw [statusOf_updateStatus, statusOf_updateAnswers, hs, Option.map_some',
              Option.some.injEq] at hs'
            by_cases hrip : rid = r0.id
            · rw [if_pos hrip] at hs'
              obtain ⟨x, hxm, hxi, hxs⟩ := statusOf_mem hs
              have hx0 : x = r0 := eq_of_same_id hinv.1 hxm hmem (by rw [hxi, hrip])
              refine ⟨by rw [← hxs, hx0]; exact hstat, by rw [← hs']; simp⟩
            · rw [if_neg hrip] at hs'
              exact absurd hs' hss
          · intro rid
            rw [countPost_cons_post]
            by_cases hrip : rid = r0.id
            · rw [if_pos (by rw [hrip])]
              have hbefore : answeredIn db rid = false := by
                rw [hrip]
                exact answeredIn_eq_false_of_unique_pending hinv.1 hmem (by rw [hstat]; simp)
              have hafter : answeredIn (updateStatus r0.id Status.answered
                  (updateAnswers r0.id (l0 ++ [t]) db)) rid = true := by
                rw [hrip]
                exact answeredIn_updateStatus_answered_self hr0mem2 rfl
              rw [hbefore, hafter]
              simp [countPost]
            · rw [if_neg (fun h => hrip (by rw [h]))]
              rw [answeredIn_updateStatus_answered_other hrip, answeredIn_updateAnswers]
              simp [countPost]

/-- Specification of the fan-out loop: invariant preserved, rows only
appended and all of them pending, standups untouched, no individual-summary
post emitted. -/
theorem fanOutLoop_spec {sid : Nat} {qs : List String} (hqs : qs ≠ []) :
    ∀ (ms : List Member) (db : DB), DBInv db →
      DBInv (fanOutLoop sid qs ms db).1 ∧
      (fanOutLoop sid qs ms db).1.standups = db.standups ∧
      (∃ news, (fanOutLoop sid qs ms db).1.responses = db.responses ++ news ∧
        ∀ r ∈ news, r.status = Status.pending) ∧
      ∀ rid, countPost rid (fanOutLoop sid qs ms db).2 = 0 := by
  intro ms
  induction ms with
  | nil =>
    intro db hinv
    exact ⟨hinv, rfl, ⟨[], by simp [fanOutLoop], by simp⟩, fun rid => rfl⟩
  | cons m ms ih =>
    intro db hinv
    have hinv1 : DBInv (insertResponse sid m qs db).1 := insertResponse_dbInv hqs hinv
    have hask := askNext_of_dbInv hinv1 m._id
    have hpm : (promptMember sid qs db m).1 = (insertResponse sid m qs db).1 := by
      unfold promptMember
      exact hask.1
    obtain ⟨hinv2, hstand2, ⟨news2, hresp2, hpend2⟩, hcount2⟩ :=
      ih (promptMember sid qs db m).1 (by rw [hpm]; exact hinv1)
    refine ⟨?_, ?_, ?_, ?_⟩
    · rw [show (fanOutLoop sid qs (m :: ms) db).1 =
        (fanOutLoop sid qs ms (promptMember sid qs db m).1).1 from rfl]
      exact hinv2
    · rw [show (fanOutLoop sid qs (m :: ms) db).1 =
        (fanOutLoop sid qs ms (promptMember sid qs db m).1).1 from rfl]
      rw [hstand2, hpm]
      rfl
    · refine ⟨newResponse sid m qs db.nextResponseId :: news2, ?_, ?_⟩
      · rw [show (fanOutLoop sid qs (m :: ms) db).1 =
          (fanOutLoop sid qs ms (promptMember sid qs db m).1).1 from rfl]
        rw [hresp2, hpm]
        rw [show ((insertResponse sid m qs db).1).responses =
          db.responses ++ [newResponse sid m qs db.nextResponseId] from rfl]
        simp
      · intro r hr
        rcases List.mem_cons.mp hr with hr | hr
        · rw [hr]; rfl
        · exact hpend2 r hr
    · intro rid
      rw [show (fanOutLoop sid qs (m :: ms) db).2 =
        (promptMember sid qs db m).2 ++ (fanOutLoop sid qs ms (promptMember sid qs db m).1).2 from rfl]
      rw [countPost_append, hcount2 rid]
      have : countPost rid (promptMember sid qs db m).2 = 0 := by
        unfold promptMember
        exact hask.2 rid
      rw [this]

/-- Specification of a full `promptUsersForStandup` firing. -/
theorem promptUsers_spec {today : String} {members : List Member} {qs : List String}
    (hqs : qs ≠ []) {db : DB} (hinv : DBInv db) :
    DBInv (promptUsersForStandup today members qs db).1 ∧
      (∃ news, (promptUsersForStandup today members qs db).1.responses = db.responses ++ news ∧
        ∀ r ∈ news, r.status = Status.pending) ∧
      ∀ rid, countPost rid (promptUsersForStandup today members qs db).2 = 0 := by
  have hgc : DBInv (getOrCreateSession today db).1 ∧
      (getOrCreateSession today db).1.responses = db.responses ∧
      (getOrCreateSession today db).1.nextResponseId = db.nextResponseId :=
    getOrCreateSession_dbInv hinv
  obtain ⟨hinv1, hresp1, hnext1⟩ := hgc
  unfold promptUsersForStandup
  cases hg : getOrCreateSession today db with
  | mk db1 osid =>
    rw [hg] at hinv1 hresp1
    cases osid with
    | none =>
      exact ⟨hinv1, ⟨[], by simpa using hresp1, by simp⟩, fun rid => rfl⟩
    | some sid =>
      obtain ⟨hinv2, _, ⟨news, hresp2, hpend⟩, hcount⟩ := fanOutLoop_spec hqs members db1 hinv1
      exact ⟨hinv2, ⟨news, by rw [hresp2, hresp1], hpend⟩, hcount⟩

/-- Master step lemma: every operation preserves the invariant, never touches
a terminal row, only moves statuses `pending → terminal`, and posts an
individual summary exactly when a row reaches `answered`. -/
theorem step_spec {db db' : DB} {evs : List Event} (hinv : DBInv db) (hs : Step db db' evs) :
    DBInv db' ∧
      (∀ r ∈ db.responses, r.status ≠ Status.pending → r ∈ db'.responses) ∧
      (∀ rid s s', statusOf rid db = some s → statusOf rid db' = some s' → s ≠ s' →
        s = Status.pending ∧ s' ≠ Status.pending) ∧
      (∀ rid, countPost rid evs + (if answeredIn db rid = true then 1 else 0) =
        (if answeredIn db' rid = true then 1 else 0)) := by
  cases hs with
  | inbound u t _ _ _ hp => exact inbound_spec hinv hp
  | rollup today _ =>
    refine ⟨hinv, fun r hr _ => hr, ?_, ?_⟩
    · intro rid s s' hs1 hs2 hss
      rw [hs1] at hs2
      exact absurd ((Option.some.injEq _ _).mp hs2) hss
    · intro rid
      have h0 : countPost rid (publishStandupSummary today db) = 0 := by
        unfold publishStandupSummary
        by_cases he : (nonRespondents today db).isEmpty
        · rw [if_pos he]
          rfl
        · rw [if_neg he, countPost_cons_msg]
          rfl
      rw [h0]
      simp
  | fanOut today members qs hqs =>
    obtain ⟨hinv', ⟨news, hresp, hpend⟩, hcount⟩ := promptUsers_spec hqs hinv
    refine ⟨hinv', ?_, ?_, ?_⟩
    · intro r hr _
      rw [hresp]
      exact List.mem_append_left _ hr
    · intro rid s s' hs1 hs2 hss
      unfold statusOf at hs1 hs2
      rw [hresp, List.find?_append] at hs2
      cases hf : db.responses.find? (fun r => decide (r.id = rid)) with
      | none =>
        rw [hf] at hs1
        cases hs1
      | some x =>
        rw [hf] at hs1 hs2
        simp only [Option.or] at hs2
        rw [hs1] at hs2
        exact absurd ((Option.some.injEq _ _).mp hs2) hss
    · intro rid
      rw [hcount rid]
      have hsame : answeredIn (promptUsersForStandup today members qs db).1 rid =
          answeredIn db rid := by
        unfold answeredIn
        rw [hresp, List.any_append]
        have hnews : news.any (fun r => decide (r.id = rid) &&
            decide (r.status = Status.answered)) = false := by
          rw [List.any_eq_false]
          intro x hx
          simp [hpend x hx]
        rw [hnews, Bool.or_false]
      rw [hsame]
      simp

/-- Every reachable database state satisfies the invariant. -/
theorem reachable_dbInv {db : DB} (h : Reachable db) : DBInv db := by
  induction h with
  | init => exact dbInv_initDB
  | step _ hs ih => exact (step_spec ih hs).1

theorem trace_reachable {db : DB} {evs : List Event} (h : Trace db evs) : Reachable db := by
  induction h with
  | init => exact Reachable.init
  | step _ hs ih => exact Reachable.step ih hs

/-- Accumulated-event invariant: the number of individual-summary posts for a
row equals 1 exactly when that row has reached `answered`, else 0. -/
theorem trace_count {db : DB} {evs : List Event} (h : Trace db evs) (rid : Nat) :
    countPost rid evs = (if answeredIn db rid = true then 1 else 0) := by
  induction h with
  | init => simp [countPost, answeredIn, initDB]
  | step ht hs ih =>
    have hinv := reachable_dbInv (trace_reachable ht)
    have hstep := (step_spec hinv hs).2.2.2 rid
    rw [countPost_append, ih]
    omega

/- ### Characterizations of `getOrCreateSession` -/

theorem getOrCreate_eq_of_exists {date : String} {db : DB}
    (hex : db.standups.any (fun s => decide (s.standup_date = date)) = true) :
    getOrCreateSession date db = (db, selectStandupByDate date db) := by
  unfold getOrCreateSession insertStandupRun
  rw [if_pos hex]

theorem getOrCreate_eq_of_not_exists {date : String} {db : DB}
    (hex : db.standups.any (fun s => decide (s.standup_date = date)) = false) :
    getOrCreateSession date db =
      ({ db with
          standups := db.standups ++ [(⟨db.nextStandupId, date⟩ : Standup)],
          nextStandupId := db.nextStandupId + 1 },
       some db.nextStandupId) := by
  unfold getOrCreateSession insertStandupRun
  rw [if_neg (by rw [hex]; exact Bool.false_ne_true)]

/- ### The claims -/

/-- C1: session creation is idempotent per calendar date — the session
creation step of the daily fan-out never surfaces an error (`.2.isSome`), and
a second `getOrCreateSession` with the same date is a no-op returning the
same session id. -/
theorem c1_getOrCreateSession_idempotent (date : String) (db : DB) :
    (getOrCreateSession date db).2.isSome = true ∧
      getOrCreateSession date (getOrCreateSession date db).1 =
        ((getOrCreateSession date db).1, (getOrCreateSession date db).2) := by
  by_cases hex : db.standups.any (fun s => decide (s.standup_date = date)) = true
  · rw [getOrCreate_eq_of_exists hex]
    constructor
    · show (selectStandupByDate date db).isSome = true
      unfold selectStandupByDate
      rw [Option.isSome_map']
      rw [List.find?_isSome]
      obtain ⟨s, hs, hps⟩ := List.any_eq_true.mp hex
      exact ⟨s, hs, hps⟩
    · show getOrCreateSession date db = (db, selectStandupByDate date db)
      exact getOrCreate_eq_of_exists hex
  · have hex' : db.standups.any (fun s => decide (s.standup_date = date)) = false :=
      Bool.not_eq_true _ ▸ eq_false_of_ne_true hex
    rw [getOrCreate_eq_of_not_exists hex']
    refine ⟨rfl, ?_⟩
    have hex2 : ({ db with
        standups := db.standups ++ [(⟨db.nextStandupId, date⟩ : Standup)],
        nextStandupId := db.nextStandupId + 1 } : DB).standups.any
          (fun s => decide (s.standup_date = date)) = true := by
      rw [show ({ db with
          standups := db.standups ++ [(⟨db.nextStandupId, date⟩ : Standup)],
          nextStandupId := db.nextStandupId + 1 } : DB).standups =
        db.standups ++ [(⟨db.nextStandupId, date⟩ : Standup)] from rfl]
      rw [List.any_append]
      simp
    rw [getOrCreate_eq_of_exists hex2]
    have hsel : selectStandupByDate date { db with
        standups := db.standups ++ [(⟨db.nextStandupId, date⟩ : Standup)],
        nextStandupId := db.nextStandupId + 1 } = some db.nextStandupId := by
      unfold selectStandupByDate
      rw [show ({ db with
          standups := db.standups ++ [(⟨db.nextStandupId, date⟩ : Standup)],
          nextStandupId := db.nextStandupId + 1 } : DB).standups =
        db.standups ++ [(⟨db.nextStandupId, date⟩ : Standup)] from rfl]
      rw [List.find?_append]
      have hnone : db.standups.find? (fun s => decide (s.standup_date = date)) = none := by
        rw [List.find?_eq_none]
        intro s hs
        have := List.any_eq_false.mp hex' s hs
        simpa using this
      rw [hnone]
      simp
    rw [hsel]

/-- C2: status transitions are monotonic.  Across any single operation fired
from a reachable state, a row that is already terminal (`answered` or
`skipped`) is left fully unchanged, and any status change is
`pending → answered` or `pending → skipped`. -/
theorem c2_status_transitions_monotonic {db db' : DB} {evs : List Event}
    (hreach : Reachable db) (hstep : Step db db' evs) :
    (∀ r ∈ db.responses, r.status ≠ Status.pending → r ∈ db'.responses) ∧
      (∀ rid s s', statusOf rid db = some s → statusOf rid db' = some s' → s ≠ s' →
        s = Status.pending ∧ (s' = Status.answered ∨ s' = Status.skipped)) := by
  obtain ⟨-, hterm, htrans, -⟩ := step_spec (reachable_dbInv hreach) hstep
  refine ⟨hterm, ?_⟩
  intro rid s s' h1 h2 hss
  obtain ⟨hp, hnp⟩ := htrans rid s s' h1 h2 hss
  refine ⟨hp, ?_⟩
  cases s' with
  | pending => exact absurd rfl hnp
  | answered => exact Or.inl rfl
  | skipped => exact Or.inr rfl

/-- C3: in every reachable database state every response row has a non-`NULL`
answers array no longer than its question snapshot, with equality whenever
the row is `answered`; in particular the bound holds after every
`appendAnswer` performed by `processStandupResponse`. -/
theorem c3_answers_bounded_by_questions {db : DB} (h : Reachable db) :
    ∀ r ∈ db.responses, ∃ l, r.answers = some l ∧
      l.length ≤ r.questions.length ∧
      (r.status = Status.answered → l.length = r.questions.length) := by
  intro r hr
  obtain ⟨-, l, hans, hle, hfull, -⟩ := (reachable_dbInv h).2.2 r hr
  exact ⟨l, hans, hle, hfull⟩

/-- C8 counterexample: running the fan-out twice on the same date inserts a
second response row for the same (session, participant) pair — the insert
does not fail, and afterwards the pair has two rows, so the claimed
`DuplicateRecord` rejection (and the at-most-one-row consequence) is false. -/
theorem c8_counterexample_duplicate_rows :
    (((promptUsersForStandup "2026-10-10" [⟨"u1", "alice"⟩] ["Q1"]
        (promptUsersForStandup "2026-10-10" [⟨"u1", "alice"⟩] ["Q1"] initDB).1).1).responses.filter
      (fun r => decide (r.standup_id = 1) && decide (r.user_id = "u1"))).length = 2 := by
  decide

/-- C8 amended: `createResponseRecord` (the response `INSERT` of the fan-out)
never fails and never deduplicates — it always appends exactly one new
`pending` row, so a second creation for the same (session, participant) pair
yields a second row rather than a `DuplicateRecord` error. -/
theorem c8_amended_insert_always_appends (sid : Nat) (m : Member) (qs : List String)
    (db : DB) :
    (insertResponse sid m qs db).1.responses =
      db.responses ++ [newResponse sid m qs db.nextResponseId] ∧
    ((insertResponse sid m qs db).1.responses.filter
        (fun r => decide (r.standup_id = sid) && decide (r.user_id = m._id))).length =
      (db.responses.filter
        (fun r => decide (r.standup_id = sid) && decide (r.user_id = m._id))).length + 1 := by
  refine ⟨rfl, ?_⟩
  rw [show (insertResponse sid m qs db).1.responses =
    db.responses ++ [newResponse sid m qs db.nextResponseId] from rfl]
  rw [List.filter_append, List.length_append]
  simp [newResponse]

/-- C10: every row created by the fan-out starts with `answers` set to the
serialized empty array (`JSON.stringify([])`, not `NULL`); in every reachable
state every row has a non-`NULL` serialized answers array, and therefore the
unguarded `JSON.parse(userResponse.answers)` in the inbound-reply handler
never faults. -/
theorem c10_answers_always_parseable {db : DB} (h : Reachable db) :
    (∀ sid m qs i, (newResponse sid m qs i).answers = some []) ∧
      (∀ r ∈ db.responses, ∃ l, r.answers = some l) ∧
      (∀ u t, (processStandupResponse u t db).isSome = true) := by
  refine ⟨fun _ _ _ _ => rfl, ?_, ?_⟩
  · intro r hr
    obtain ⟨-, l, hans, -⟩ := (reachable_dbInv h).2.2 r hr
    exact ⟨l, hans⟩
  · intro u t
    unfold processStandupResponse
    cases hlp : latestPendingFor u db with
    | none => rfl
    | some r =>
      dsimp only
      obtain ⟨hmem, -, -⟩ := latestPendingFor_spec hlp
      obtain ⟨-, l, hans, -⟩ := (reachable_dbInv h).2.2 r hmem
      by_cases hskip : isSkipText t = true
      · rw [if_pos hskip]
        rfl
      · rw [if_neg hskip, hans]
        rfl

theorem answersOf_askNext (u : String) (d : DB) (rid : Nat) :
    answersOf rid (askNextQuestion u d).1 = answersOf rid d := by
  rcases askNext_fst (u := u) (d := d) with h | ⟨i, h⟩
  · rw [h]
  · rw [h, answersOf_updateStatus]

/-- C4: the skip path is taken exactly when the inbound text, lower-cased and
trimmed of surrounding whitespace, equals the literal word `skip` — so
`"skip"`, `"Skip"`, `"  SKIP  "` skip while `"skipping today"` does not —
and any other text is appended to the stored answers verbatim, untrimmed and
uncased. -/
theorem c4_skip_detection_and_verbatim_answers (db : DB) (userId text : String)
    (r : ResponseRecord) (l : List String)
    (hr : latestPendingFor userId db = some r) (ha : r.answers = some l) :
    (isSkipText "skip" = true ∧ isSkipText "Skip" = true ∧
      isSkipText "  SKIP  " = true ∧ isSkipText "skipping today" = false) ∧
    (isSkipText text = true ↔ jsTrim (jsToLower text) = "skip") ∧
    (isSkipText text = true →
      processStandupResponse userId text db =
        some (updateStatus r.id Status.skipped db,
          [Event.dm userId "You have skipped today\x27s standup. Thank you.",
           Event.channelMsg ("@" ++ r.username ++ " has skipped his standup.")])) ∧
    (isSkipText text = false →
      ∃ p, processStandupResponse userId text db = some p ∧
        answersOf r.id p.1 = some (some (l ++ [text]))) := by
  refine ⟨⟨by decide, by decide, by decide, by decide⟩,
    by unfold isSkipText; exact decide_eq_true_iff, ?_, ?_⟩
  · intro hsk
    unfold processStandupResponse
    rw [hr]
    dsimp only
    rw [if_pos hsk]
  · intro hsk
    unfold processStandupResponse
    rw [hr]
    dsimp only
    rw [if_neg (by rw [hsk]; exact Bool.false_ne_true), ha]
    dsimp only
    refine ⟨(askNextQuestion userId (updateAnswers r.id (l ++ [text]) db)), rfl, ?_⟩
    rw [answersOf_askNext]
    exact answersOf_updateAnswers_self (latestPendingFor_spec hr).1

/-- C5: when the pending record of a participant has as many answers as
questions, `askNextQuestion` flips it to `answered` and posts its individual
summary in the same step; and along any whole execution trace at most one
individual summary is ever posted per record — exactly one once (and only
once) the record is `answered`. -/
theorem c5_individual_summary_exactly_once (u : String) (db : DB) (r : ResponseRecord)
    (l : List String) (hr : latestPendingFor u db = some r) (ha : r.answers = some l)
    (hfull : l.length = r.questions.length)
    (tdb : DB) (tevs : List Event) (ht : Trace tdb tevs) (rid : Nat) :
    askNextQuestion u db =
      (updateStatus r.id Status.answered db,
       [Event.channelPost r.id ("--- @" ++ r.username ++ " has completed his standup ---\n")
          (buildAttachments r.questions 0 l)]) ∧
    countPost rid tevs ≤ 1 ∧
    (countPost rid tevs = 1 ↔ answeredIn tdb rid = true) := by
  refine ⟨askNext_completes hr ha (by omega), ?_, ?_⟩
  · rw [trace_count ht rid]
    split
    · exact Nat.le_refl 1
    · exact Nat.zero_le 1
  · rw [trace_count ht rid]
    by_cases h : answeredIn tdb rid = true <;> simp [h]

/-- C7: with `i = len(answers) < len(questions)`, `askNextQuestion` sends
exactly question `questions[i]` as a direct message, prefixed by the one-time
instructional banner (skip command, answers not editable) if and only if
`i = 0`; for `i > 0` the question is sent bare, and the database is not
touched. -/
theorem c7_banner_exactly_on_first_question (u : String) (db : DB) (r : ResponseRecord)
    (hr : latestPendingFor u db = some r)
    (h : (r.answers.getD []).length < r.questions.length) :
    askNextQuestion u db = (db,
      [Event.dm u ((if (r.answers.getD []).length = 0 then standupBanner r.username else "") ++
        ("- " ++ r.questions.get ⟨(r.answers.getD []).length, h⟩))]) := by
  rw [askNext_asks hr h]
  refine congrArg (fun m => (db, [Event.dm u m])) ?_
  by_cases h0 : (r.answers.getD []).length = 0
  · rw [if_pos h0, if_pos h0, String.append_assoc]
  · rw [if_neg h0, if_neg h0]
    simp

theorem mem_escapeNewlines_ne (cs : List Char) : '\n' ∉ escapeNewlines cs := by
  induction cs with
  | nil => simp [escapeNewlines]
  | cons c cs ih =>
    simp only [escapeNewlines]
    by_cases hc : c = '\n'
    · rw [if_pos hc]
      intro hm
      rcases List.mem_cons.mp hm with h | hm2
      · exact absurd h (by decide)
      · rcases List.mem_cons.mp hm2 with h | hm3
        · exact absurd h (by decide)
        · exact ih hm3
    · rw [if_neg hc]
      intro hm
      rcases List.mem_cons.mp hm with h | hm2
      · exact hc h.symm
      · exact ih hm2

theorem formatAnswer_ne_self {s : String} (h : '\n' ∈ s.data) : formatAnswer s ≠ s := by
  intro he
  have hd : escapeNewlines s.data = s.data := by
    have : (formatAnswer s).data = s.data := by rw [he]
    exact this
  rw [← hd] at h
  exact mem_escapeNewlines_ne s.data h

theorem buildAttachments_get? (questions : List String) :
    ∀ (l : List String) (k i : Nat),
      (buildAttachments questions k l).get? i =
        (l.get? i).map (fun ans =>
          ⟨attachmentColor (k + i), questions.getD (k + i) "", formatAnswer ans⟩) := by
  intro l
  induction l with
  | nil => intro k i; simp [buildAttachments]
  | cons a as ih =>
    intro k i
    cases i with
    | zero => simp [buildAttachments]
    | succ j =>
      rw [show buildAttachments questions k (a :: as) =
        ({ color := attachmentColor k, title := questions.getD k "", text := formatAnswer a } :
          Attachment) :: buildAttachments questions (k + 1) as from rfl]
      rw [List.get?_cons_succ, List.get?_cons_succ, ih (k + 1) j]
      rw [show k + (j + 1) = k + 1 + j from by omega]

/-- C9: the individual summary never posts an answer verbatim when it embeds
a newline — `publishIndividualSummary` renders attachment `i` with text
`formatAnswer` of the stored answer (every newline replaced by the
two-character sequence backslash-`n`), which differs from the stored answer
whenever the answer contains a newline. -/
theorem c9_newlines_escaped_in_summary (r : ResponseRecord) (l : List String)
    (ha : r.answers = some l) (i : Nat) (a : String) (hl : l.get? i = some a)
    (hnl : '\n' ∈ a.data) :
    publishIndividualSummary r =
      some (Event.channelPost r.id
        ("--- @" ++ r.username ++ " has completed his standup ---\n")
        (buildAttachments r.questions 0 l)) ∧
    (buildAttachments r.questions 0 l).get? i =
      some ⟨attachmentColor i, r.questions.getD i "", formatAnswer a⟩ ∧
    formatAnswer a ≠ a := by
  refine ⟨?_, ?_, formatAnswer_ne_self hnl⟩
  · unfold publishIndividualSummary
    rw [ha]
  · rw [buildAttachments_get? r.questions l 0 i, hl]
    simp

theorem foldl_string_append {α : Type} (f : α → String) :
    ∀ (l : List α) (init : String),
      l.foldl (fun acc x => acc ++ f x) init =
        init ++ l.foldl (fun acc x => acc ++ f x) "" := by
  intro l
  induction l with
  | nil => intro init; simp
  | cons a as ih =>
    intro init
    rw [List.foldl_cons, List.foldl_cons, ih (init ++ f a), ih ("" ++ f a)]
    rw [String.append_assoc]
    simp

theorem foldl_eq_join {α : Type} (f : α → String) (l : List α) (init : String) :
    l.foldl (fun acc x => acc ++ f x) init = init ++ String.join (l.map f) := by
  rw [foldl_string_append]
  unfold String.join
  rw [List.foldl_map]

/-- C6: with the rollup fired on the same calendar date as the fan-out, the
rollup query returns exactly the rows of the fanned-out session whose status
at query time is `pending` or `skipped`; it posts nothing when that set is
empty and otherwise exactly one channel message assembling one line per such
row — naming the participant as having skipped the standup for `skipped`
rows, as not having responded for all others. -/
theorem c6_rollup_lists_non_respondents (today : String) (db : DB) (s : Standup)
    (hnd : (db.standups.map (fun u => u.standup_date)).Nodup)
    (hs : s ∈ db.standups) (hdate : s.standup_date = today) :
    nonRespondents today db = db.responses.filter
      (fun r => decide (r.standup_id = s.id) &&
        (decide (r.status = Status.pending) || decide (r.status = Status.skipped))) ∧
    (nonRespondents today db = [] → publishStandupSummary today db = []) ∧
    (nonRespondents today db ≠ [] →
      publishStandupSummary today db =
        [Event.channelMsg ("Daily Standup Summary\n\n" ++
          String.join ((nonRespondents today db).map rollupLine))]) ∧
    (∀ r ∈ nonRespondents today db,
      (r.status = Status.skipped →
        rollupLine r = "@" ++ r.username ++ ": Skipped the standup.\n\n") ∧
      (r.status = Status.pending →
        rollupLine r = "@" ++ r.username ++ ": Did not respond.\n\n")) := by
  refine ⟨?_, ?_, ?_, ?_⟩
  · unfold nonRespondents
    apply List.filter_congr
    intro r _
    have hany : db.standups.any
        (fun u => decide (u.id = r.standup_id) && decide (u.standup_date = today)) =
        decide (r.standup_id = s.id) := by
      rw [Bool.eq_iff_iff]
      constructor
      · intro h
        obtain ⟨u, hu, hpu⟩ := List.any_eq_true.mp h
        simp only [Bool.and_eq_true, decide_eq_true_eq] at hpu
        have hus : u = s :=
          List.inj_on_of_nodup_map hnd hu hs (by rw [hpu.2, hdate])
        rw [decide_eq_true_eq, ← hpu.1, hus]
      · intro h
        rw [decide_eq_true_eq] at h
        rw [List.any_eq_true]
        refine ⟨s, hs, ?_⟩
        simp [h, hdate]
    rw [hany]
  · intro he
    unfold publishStandupSummary
    rw [if_pos (by rw [he]; rfl)]
  · intro he
    unfold publishStandupSummary
    rw [if_neg (by rw [List.isEmpty_iff]; exact he)]
    rw [foldl_eq_join]
  · intro r _
    constructor
    · intro h
      unfold rollupLine
      rw [if_pos h]
    · intro h
      unfold rollupLine
      rw [if_neg (by rw [h]; intro hc; cases hc)]

/- ### Concrete fixtures for the witnesses -/

def aliceM : Member := ⟨"u1", "alice"⟩

def bobM : Member := ⟨"u2", "bob"⟩

/-- The database right after one fan-out for two members and two questions. -/
def dbFan : DB := (promptUsersForStandup "2026-10-10" [aliceM, bobM] ["Q1", "Q2"] initDB).1

/-- The row the fan-out creates for `aliceM` in `dbFan`. -/
def aliceRec : ResponseRecord :=
  ⟨1, 1, "u1", "alice", ["Q1", "Q2"], some [], Status.pending⟩

/-- A pending row that has already collected as many answers as questions. -/
def fullRec : ResponseRecord := ⟨1, 1, "u1", "alice", ["Q1"], some ["A1"], Status.pending⟩

def dbFull : DB := ⟨[⟨1, "2026-10-10"⟩], [fullRec], 2, 2⟩

/-- A session with one still-pending and one skipped participant. -/
def dbRoll : DB :=
  ⟨[⟨1, "2026-10-10"⟩],
   [⟨1, 1, "u1", "alice", ["Q1"], some [], Status.pending⟩,
    ⟨2, 1, "u2", "bob", ["Q1"], some [], Status.skipped⟩], 2, 3⟩

/-- A completed row whose stored answer embeds a newline. -/
def nlRec : ResponseRecord := ⟨1, 1, "u1", "alice", ["Q1"], some ["x\ny"], Status.answered⟩

/- ### Witnesses -/

theorem c2_witness :
    (∀ r ∈ initDB.responses, r.status ≠ Status.pending →
      r ∈ (promptUsersForStandup "2026-10-10" [aliceM] ["Q1"] initDB).1.responses) ∧
      (∀ rid s s', statusOf rid initDB = some s →
        statusOf rid (promptUsersForStandup "2026-10-10" [aliceM] ["Q1"] initDB).1 = some s' →
        s ≠ s' → s = Status.pending ∧ (s' = Status.answered ∨ s' = Status.skipped)) :=
  c2_status_transitions_monotonic Reachable.init
    (Step.fanOut "2026-10-10" [aliceM] ["Q1"] (by decide) initDB)

theorem c3_witness :
    ∃ l, aliceRec.answers = some l ∧
      l.length ≤ aliceRec.questions.length ∧
      (aliceRec.status = Status.answered → l.length = aliceRec.questions.length) :=
  c3_answers_bounded_by_questions
    (Reachable.step Reachable.init
      (Step.fanOut "2026-10-10" [aliceM, bobM] ["Q1", "Q2"] (by decide) initDB))
    aliceRec (by decide)

theorem c4_witness :
    (isSkipText "skip" = true ∧ isSkipText "Skip" = true ∧
      isSkipText "  SKIP  " = true ∧ isSkipText "skipping today" = false) ∧
      (isSkipText "hello" = true ↔ jsTrim (jsToLower "hello") = "skip") ∧
      (isSkipText "hello" = true →
        processStandupResponse "u1" "hello" dbFan =
          some (updateStatus aliceRec.id Status.skipped dbFan,
            [Event.dm "u1" "You have skipped today\x27s standup. Thank you.",
             Event.channelMsg ("@" ++ aliceRec.username ++ " has skipped his standup.")])) ∧
      (isSkipText "hello" = false →
        ∃ p, processStandupResponse "u1" "hello" dbFan = some p ∧
          answersOf aliceRec.id p.1 = some (some ([] ++ ["hello"]))) :=
  c4_skip_detection_and_verbatim_answers dbFan "u1" "hello" aliceRec [] (by decide) rfl

theorem c5_witness :
    askNextQuestion "u1" dbFull =
      (updateStatus fullRec.id Status.answered dbFull,
       [Event.channelPost fullRec.id
          ("--- @" ++ fullRec.username ++ " has completed his standup ---\n")
          (buildAttachments fullRec.questions 0 ["A1"])]) ∧
      countPost 1 [] ≤ 1 ∧
      (countPost 1 [] = 1 ↔ answeredIn initDB 1 = true) :=
  c5_individual_summary_exactly_once "u1" dbFull fullRec ["A1"] (by decide) rfl rfl
    initDB [] Trace.init 1

theorem c6_witness :
    (nonRespondents "2026-10-10" dbRoll = dbRoll.responses.filter
      (fun r => decide (r.standup_id = (⟨1, "2026-10-10"⟩ : Standup).id) &&
        (decide (r.status = Status.pending) || decide (r.status = Status.skipped)))) ∧
      (nonRespondents "2026-10-10" dbRoll = [] →
        publishStandupSummary "2026-10-10" dbRoll = []) ∧
      (nonRespondents "2026-10-10" dbRoll ≠ [] →
        publishStandupSummary "2026-10-10" dbRoll =
          [Event.channelMsg ("Daily Standup Summary\n\n" ++
            String.join ((nonRespondents "2026-10-10" dbRoll).map rollupLine))]) ∧
      (∀ r ∈ nonRespondents "2026-10-10" dbRoll,
        (r.status = Status.skipped →
          rollupLine r = "@" ++ r.username ++ ": Skipped the standup.\n\n") ∧
        (r.status = Status.pending →
          rollupLine r = "@" ++ r.username ++ ": Did not respond.\n\n")) :=
  c6_rollup_lists_non_respondents "2026-10-10" dbRoll ⟨1, "2026-10-10"⟩
    (by decide) (by decide) rfl

theorem c7_witness :
    askNextQuestion "u1" dbFan = (dbFan,
      [Event.dm "u1" ((if (aliceRec.answers.getD []).length = 0 then
          standupBanner aliceRec.username else "") ++
        ("- " ++ aliceRec.questions.get ⟨(aliceRec.answers.getD []).length, by decide⟩))]) :=
  c7_banner_exactly_on_first_question "u1" dbFan aliceRec (by decide) (by decide)

theorem c9_witness :
    publishIndividualSummary nlRec =
      some (Event.channelPost nlRec.id
        ("--- @" ++ nlRec.username ++ " has completed his standup ---\n")
        (buildAttachments nlRec.questions 0 ["x\ny"])) ∧
      (buildAttachments nlRec.questions 0 ["x\ny"]).get? 0 =
        some ⟨attachmentColor 0, nlRec.questions.getD 0 "", formatAnswer "x\ny"⟩ ∧
      formatAnswer "x\ny" ≠ "x\ny" :=
  c9_newlines_escaped_in_summary nlRec ["x\ny"] rfl 0 "x\ny" rfl (by decide)

theorem c10_witness :
    (∀ sid m qs i, (newResponse sid m qs i).answers = some []) ∧
      (∀ r ∈ dbFan.responses, ∃ l, r.answers = some l) ∧
      (∀ u t, (processStandupResponse u t dbFan).isSome = true) :=
  c10_answers_always_parseable
    (Reachable.step Reachable.init
      (Step.fanOut "2026-10-10" [aliceM, bobM] ["Q1", "Q2"] (by decide) initDB))
